import Mathlib

/-!
Verification development for the release-repository manager
(`cmd/server/repository.go`, `cmd/server/service.go`, `cmd/server/model.go`).

The Go code is shallowly embedded: pure helpers become Lean functions,
the JSON-backed metadata store becomes explicit state passing over an
association-list model of Go's nested maps, and filesystem interaction is
modelled by an explicit oracle `Fs : String → FsStat`.  Machine integers
(`int`, `int64`) are modelled as `Int`/`Nat` with explicit bounds where the
code depends on them.  Functions that can fail return `Option`/`Except`;
Go panics are modelled by a distinguished outcome.
-/

namespace RepoMan

/-! ## String utilities mirroring the Go standard library -/

/-- Model of `strings.Split(s, ".")` at the character-list level: split a
character list at every occurrence of `'.'`.  `splitOnDot [] = [[]]`,
matching Go's `strings.Split("", ".") = [""]`. -/
def splitOnDot : List Char → List (List Char)
  | [] => [[]]
  | c :: rest =>
    if c = '.' then [] :: splitOnDot rest
    else
      match splitOnDot rest with
      | [] => [[c]]
      | p :: ps => (c :: p) :: ps

/-- Model of `strings.Split(metadata.Version, ".")`, producing strings. -/
def splitAll (s : String) : List String :=
  (splitOnDot s.data).map (fun l => String.mk l)

/-- Join character-list pieces with `'.'` between them (used to rebuild the
unsplit remainder for `strings.SplitN`). -/
def joinDots : List (List Char) → List Char
  | [] => []
  | [p] => p
  | p :: ps => p ++ '.' :: joinDots ps

/-- Model of `strings.SplitN(s, ".", 3)`: at most three pieces, the third
piece keeping any further dots. -/
def goSplitN3 (s : String) : List String :=
  let ps := splitOnDot s.data
  if ps.length ≤ 3 then ps.map (fun l => String.mk l)
  else (ps.take 2).map (fun l => String.mk l) ++ [String.mk (joinDots (ps.drop 2))]

/-- Model of Go's `strconv.Atoi`: optional leading sign, one or more ASCII
digits, value restricted to the signed 64-bit range (Go `int` on a 64-bit
platform); anything else is an error (`none`). -/
def goAtoi (s : String) : Option Int :=
  match s.data with
  | [] => none
  | c :: cs =>
    let neg := c = '-'
    let digits := if c = '-' ∨ c = '+' then cs else c :: cs
    if digits.isEmpty then none
    else if digits.all Char.isDigit then
      let n : Nat := digits.foldl (fun a d => a * 10 + (d.toNat - 48)) 0
      if neg then
        if n ≤ 9223372036854775808 then some (-(n : Int)) else none
      else
        if n ≤ 9223372036854775807 then some (n : Int) else none
    else none

/-- Decimal rendering of a natural number (fuel-based so that it reduces in
the kernel); mirrors `%d` for the non-negative values produced by
`generateSoftwareIDFromName`. -/
def natToDigitsAux : Nat → Nat → List Char → List Char
  | 0, _, acc => acc
  | fuel + 1, n, acc =>
    let d := Char.ofNat (48 + n % 10)
    if n < 10 then d :: acc else natToDigitsAux fuel (n / 10) (d :: acc)

def natToStr (n : Nat) : String :=
  String.mk (natToDigitsAux (n + 1) n [])

/-- Left-pad a string with `'0'` up to width `w`; model of the `0` flag with
a width in Go's `fmt` (fmt pads left with `'0'` when the zero flag is set,
for strings as for numbers). -/
def padLeftZero (w : Nat) (s : String) : String :=
  String.mk (List.replicate (w - s.data.length) '0' ++ s.data)

/-! ## Data model (`model.go`) -/

/-- Embedding of the `ReleaseMetadata` struct from `model.go`.  The two
`time.Time` fields are modelled as integers (their only use in the core is
ordering via `Time.After`); `FileSize` is Go `int64`. -/
structure ReleaseMetadata where
  id : String
  softwareName : String
  version : String
  releaseTimestamp : Int
  fileSize : Int
  releaseState : String
  changelog : String
  releaseDate : Int
  deriving Repr, DecidableEq

/-! ## Version parsing and comparison (`service.go`) -/

/-- Embedding of the `Version` struct from `service.go`. -/
structure Version where
  major : Int
  minor : Int
  patch : Int
  original : String
  deriving Repr, DecidableEq

/-- Embedding of `parseVersion`: `strings.SplitN(versionStr, ".", 3)`, a
length-3 check, then `strconv.Atoi` on each part.  The Go function returns
distinct error messages for each failure; here all failures collapse to
`none`. -/
def parseVersion (versionStr : String) : Option Version :=
  match goSplitN3 versionStr with
  | [a, b, c] =>
    match goAtoi a, goAtoi b, goAtoi c with
    | some major, some minor, some patch =>
      some { major := major, minor := minor, patch := patch, original := versionStr }
    | _, _, _ => none
  | _ => none

/-- The sort comparators in `service.go` ignore the `parseVersion` error;
a failed parse leaves the zero value `Version{}`. -/
def parseVersionOrZero (s : String) : Version :=
  (parseVersion s).getD { major := 0, minor := 0, patch := 0, original := "" }

/-- Embedding of `Version.GreaterThan`. -/
def Version.greaterThan (v other : Version) : Bool :=
  if v.major > other.major then true
  else if v.major < other.major then false
  else if v.minor > other.minor then true
  else if v.minor < other.minor then false
  else decide (v.patch > other.patch)

/-! ## Path derivation (`repository.go` helpers) -/

/-- Embedding of `generateSoftwareIDFromName`: the rolling hash
`hash = hash*31 + int(char)` over the name's runes, masked with `0xFFFFF`.
Go `int` arithmetic wraps modulo `2^64`, and since `2^20` divides `2^64`
the low 20 bits selected by the mask equal the unwrapped value modulo
`2^20`, so the fold is taken over `Nat` and reduced once at the end. -/
def generateSoftwareIDFromName (softwareName : String) : Nat :=
  (softwareName.data.foldl (fun hash c => hash * 31 + c.toNat) 0) % 1048576

/-- Embedding of `sanitizeFilename`: `strings.ToLower` then spaces to
underscores.  `Char.toLower` is ASCII-only where Go lowercases full
Unicode; the names in this development are ASCII. -/
def sanitizeFilename (filename : String) : String :=
  String.mk (filename.data.map (fun c =>
    let lc := c.toLower
    if lc = ' ' then '_' else lc))

/-- Model of `filepath.Join(a, b)` for the already-clean path components
this code produces: join with a single slash (`filepath.Clean` is the
identity on the paths at issue and is omitted). -/
def goJoin (a b : String) : String :=
  a ++ "/" ++ b

/-- The directory-name component `fmt.Sprintf("%06d_%s", id, sanitized)`
shared by `getSoftwareDirPath` and the release filename. -/
def dirNameFor (softwareName : String) : String :=
  padLeftZero 6 (natToStr (generateSoftwareIDFromName softwareName)) ++ "_" ++
    sanitizeFilename softwareName

/-- Embedding of `getSoftwareDirPath`. -/
def getSoftwareDirPath (repoPath softwareName : String) : String :=
  goJoin repoPath (dirNameFor softwareName)

/-- Embedding of `getReleaseFilePath`.  The Go code indexes
`strings.Split(metadata.Version, ".")` at 0, 1 and 2 without a length
check; an index beyond the slice panics, modelled as `none`.  The filename
is `fmt.Sprintf("%06d_%s_%02s.%02s.%02s.tgz", ...)`, whose `%02s` verbs
zero-pad each version component to a minimum width of two. -/
def getReleaseFilePath? (repoPath : String) (metadata : ReleaseMetadata) : Option String :=
  match splitAll metadata.version with
  | a :: b :: c :: _ =>
    some (goJoin (getSoftwareDirPath repoPath metadata.softwareName)
      (dirNameFor metadata.softwareName ++ "_" ++
        padLeftZero 2 a ++ "." ++ padLeftZero 2 b ++ "." ++ padLeftZero 2 c ++ ".tgz"))
  | _ => none

/-! ## Metadata store (`JSONReleaseDatabase`)

Go's nested maps `softwareName -> version -> *ReleaseMetadata` are modelled
as association lists with unique keys (Go map insertion of a fresh key is
modelled as appending, mirroring that iteration order is fixed in the
embedding where Go's is unspecified).  `saveReleasesMetadata` rewrites the
whole collection to the JSON file; the file content is modelled as the
flattened record list `persisted`, and the write itself is modelled as
always succeeding. -/

/-- First value bound to key `k`, mirroring a Go map lookup. -/
def assocFind (k : String) : List (String × α) → Option α
  | [] => none
  | (k', v) :: rest => if k' = k then some v else assocFind k rest

/-- Replace the value bound to key `k`, mirroring a Go map update of an
existing key. -/
def assocReplace (k : String) (v : α) (l : List (String × α)) : List (String × α) :=
  l.map (fun p => if p.1 = k then (k, v) else p)

/-- Remove the binding of key `k`, mirroring Go's `delete`. -/
def assocErase (k : String) (l : List (String × α)) : List (String × α) :=
  l.filter (fun p => ¬ p.1 = k)

/-- Embedding of `saveReleasesMetadata`'s flattening of the nested maps
into the slice written to disk. -/
def flattenStore (rs : List (String × List (String × ReleaseMetadata))) :
    List ReleaseMetadata :=
  rs.flatMap (fun p => p.2.map Prod.snd)

/-- State of a `JSONReleaseDatabase`: the in-memory nested map plus the
persisted JSON file content. -/
structure DB where
  releases : List (String × List (String × ReleaseMetadata))
  persisted : List ReleaseMetadata
  deriving DecidableEq

/-- Embedding of `GetReleaseMetadata`. -/
def getReleaseMetadata (softwareName version : String) (db : DB) :
    Except String ReleaseMetadata :=
  match assocFind softwareName db.releases with
  | none => .error ("software package not found: " ++ softwareName)
  | some softwareReleases =>
    match assocFind version softwareReleases with
    | none => .error ("release version not found for software " ++ softwareName ++ ": " ++ version)
    | some metadata => .ok metadata

/-- Embedding of `ListReleasesMetadataForSoftware`. -/
def listReleasesMetadataForSoftware (softwareName : String) (db : DB) :
    Except String (List ReleaseMetadata) :=
  match assocFind softwareName db.releases with
  | none => .error ("software package not found: " ++ softwareName)
  | some softwareReleases => .ok (softwareReleases.map Prod.snd)

/-- Embedding of `CreateReleaseMetadata`.  Note the Go code first inserts
an empty inner map when the software key is absent, then checks for a
duplicate version, and only persists on success. -/
def createReleaseMetadata (metadata : ReleaseMetadata) (db : DB) :
    Except String Unit × DB :=
  let rs :=
    match assocFind metadata.softwareName db.releases with
    | none => db.releases ++ [(metadata.softwareName, [])]
    | some _ => db.releases
  let inner := (assocFind metadata.softwareName rs).getD []
  if (assocFind metadata.version inner).isSome then
    (.error ("release version already exists for software " ++ metadata.softwareName ++ ": " ++
        metadata.version),
      { db with releases := rs })
  else
    let rs' := assocReplace metadata.softwareName (inner ++ [(metadata.version, metadata)]) rs
    (.ok (), { releases := rs', persisted := flattenStore rs' })

/-- Embedding of `UpdateReleaseMetadata`. -/
def updateReleaseMetadata (metadata : ReleaseMetadata) (db : DB) :
    Except String Unit × DB :=
  match assocFind metadata.softwareName db.releases with
  | none => (.error ("software package not found: " ++ metadata.softwareName), db)
  | some inner =>
    if (assocFind metadata.version inner).isSome then
      let rs' := assocReplace metadata.softwareName
        (assocReplace metadata.version metadata inner) db.releases
      (.ok (), { releases := rs', persisted := flattenStore rs' })
    else
      (.error ("release version not found for software " ++ metadata.softwareName ++ ": " ++
          metadata.version), db)

/-- Embedding of `DeleteReleaseMetadata`, including the cleanup that drops
the software entry once its last release is deleted. -/
def deleteReleaseMetadata (softwareName version : String) (db : DB) :
    Except String Unit × DB :=
  match assocFind softwareName db.releases with
  | none => (.error ("software package not found: " ++ softwareName), db)
  | some inner =>
    if (assocFind version inner).isSome then
      let inner' := assocErase version inner
      let rs' :=
        if inner' = [] then assocErase softwareName db.releases
        else assocReplace softwareName inner' db.releases
      (.ok (), { releases := rs', persisted := flattenStore rs' })
    else
      (.error ("release version not found for software " ++ softwareName ++ ": " ++ version), db)

/-! ## Reconciliation (`ReconcileReleases`)

The filesystem is an oracle mapping a path to its stat outcome.  The Go
loop iterates over the pointers returned by `ListAllReleasesMetadata`,
which alias the records inside `db.releases`; an in-place mutation is
therefore visible to every later `UpdateReleaseMetadata` (which rewrites
the whole collection).  The embedding keeps the record list itself as the
in-memory state and snapshots it into `persisted` at each point where the
Go code calls `saveReleasesMetadata` (inside `UpdateReleaseMetadata` and
once at the end).  `UpdateReleaseMetadata` cannot fail here because every
processed record is present in the store, and persistence is modelled as
always succeeding. -/

/-- Stat outcome for one path: absent (`os.IsNotExist`), present with a
size, or an unexpected I/O error. -/
inductive FsStat where
  | absent
  | present (size : Int)
  | ioError (e : String)
  deriving Repr, DecidableEq

/-- A filesystem state maps each path to its stat outcome. -/
def Fs := String → FsStat

/-- Outcome of a reconciliation pass: normal return, surfaced error, or a
panic from `getReleaseFilePath` (see the index-out-of-range hazard). -/
inductive RecOutcome where
  | ok
  | err (e : String)
  | panicked
  deriving Repr, DecidableEq

/-- Result of a reconciliation pass: outcome, final in-memory record list,
and final persisted (JSON file) record list. -/
structure RecOut where
  outcome : RecOutcome
  mem : List ReleaseMetadata
  persisted : List ReleaseMetadata
  deriving Repr, DecidableEq

/-- One step of the reconciliation loop body as a pure record repair:
file absent forces `"unavailable"`; file present forces `"available"` and
the observed size.  Records whose path computation would panic or whose
stat errors are returned unchanged (the loop aborts on them instead). -/
def repairRecord (fs : Fs) (repoPath : String) (m : ReleaseMetadata) : ReleaseMetadata :=
  match getReleaseFilePath? repoPath m with
  | none => m
  | some path =>
    match fs path with
    | .absent => { m with releaseState := "unavailable" }
    | .present size => { m with releaseState := "available", fileSize := size }
    | .ioError _ => m

/-- The reconciliation loop.  `done` is the already-processed prefix of the
record list (holding any in-place mutations), `persisted` the current file
content, `todo` the remaining records.  On the absent branch the Go code
unconditionally calls `UpdateReleaseMetadata`, persisting the whole
current in-memory state; on the present branch it mutates the state field
in place and persists only when the recorded size differs from the
observed one; an unexpected stat error returns immediately. -/
def reconcileAux (fs : Fs) (repoPath : String) :
    List ReleaseMetadata → List ReleaseMetadata → List ReleaseMetadata → RecOut
  | done, _, [] => ⟨.ok, done, done⟩
  | done, persisted, m :: rest =>
    match getReleaseFilePath? repoPath m with
    | none => ⟨.panicked, done ++ m :: rest, persisted⟩
    | some path =>
      match fs path with
      | .absent =>
        let m' := { m with releaseState := "unavailable" }
        reconcileAux fs repoPath (done ++ [m']) (done ++ m' :: rest) rest
      | .present size =>
        let m1 := { m with releaseState := "available" }
        if m1.fileSize = size then
          reconcileAux fs repoPath (done ++ [m1]) persisted rest
        else
          let m' := { m1 with fileSize := size }
          reconcileAux fs repoPath (done ++ [m']) (done ++ m' :: rest) rest
      | .ioError e =>
        ⟨.err ("error checking release file during reconciliation for " ++ m.softwareName ++
            " " ++ m.version ++ ": " ++ e),
          done ++ m :: rest, persisted⟩

/-- Embedding of `ReconcileReleases` over a record list `store` (the
iteration order of `ListAllReleasesMetadata`) and the current file content
`persisted`. -/
def reconcileReleases (fs : Fs) (repoPath : String)
    (store persisted : List ReleaseMetadata) : RecOut :=
  reconcileAux fs repoPath [] persisted store

/-! ## Service layer (`service.go`)

`sort.Slice` is modelled by a deterministic insertion sort with the same
`less` comparator; the embedding fixes the iteration order that Go's map
ranging leaves unspecified. -/

/-- Insert into a list sorted by `less` (front = least index). -/
def insertBy (less : α → α → Bool) (x : α) : List α → List α
  | [] => [x]
  | y :: ys => if less x y then x :: y :: ys else y :: insertBy less x ys

/-- Deterministic model of `sort.Slice` with comparator `less`. -/
def sortBy (less : α → α → Bool) : List α → List α
  | [] => []
  | x :: xs => insertBy less x (sortBy less xs)

/-- Version-descending comparator shared by the default branch of
`ListReleasesForSoftware` and by `GetLatestReleaseForSoftware`: parse both
versions ignoring errors, compare with `GreaterThan`. -/
def versionGreater (a b : ReleaseMetadata) : Bool :=
  (parseVersionOrZero a.version).greaterThan (parseVersionOrZero b.version)

/-- The comparator selected by `ListReleasesForSoftware`'s switch on
`sortField`/`sortOrder` (Go `Time.After` on the model's integer dates is
`>`). -/
def sortLess (sortField sortOrder : String) (a b : ReleaseMetadata) : Bool :=
  if sortField = "version" then
    if sortOrder = "desc" then versionGreater a b else versionGreater b a
  else if sortField = "date" then
    if sortOrder = "desc" then decide (a.releaseDate > b.releaseDate)
    else decide (b.releaseDate > a.releaseDate)
  else versionGreater a b

/-- The parsed version triple a record is ordered by: `GreaterThan` reads
only the major, minor and patch fields of the parsed (or zero) version. -/
def versionTuple (m : ReleaseMetadata) : Int × Int × Int :=
  ((parseVersionOrZero m.version).major, (parseVersionOrZero m.version).minor,
    (parseVersionOrZero m.version).patch)

/-- Embedding of `ReleaseService.ListReleasesForSoftware`.  The Go code
obtains the release slice by ranging the inner map, whose iteration order
is unspecified and independently randomized on every call; that order is
made explicit as `rangeOrder`, in the theorems a permutation of the
stored releases.  The only possible error of the underlying store listing
is software-not-found, wrapped as in the source. -/
def listReleasesForSoftware (softwareName sortField sortOrder : String) (db : DB)
    (rangeOrder : List ReleaseMetadata) : Except String (List ReleaseMetadata) :=
  match assocFind softwareName db.releases with
  | none => .error ("failed to list releases for software " ++ softwareName ++ ": " ++
      ("software package not found: " ++ softwareName))
  | some _ => .ok (sortBy (sortLess sortField sortOrder) rangeOrder)

/-- Embedding of `ReleaseService.GetLatestReleaseForSoftware`: error
passthrough, empty check, version-descending sort, first element.  As for
listing, the per-call map range order is the explicit `rangeOrder`. -/
def getLatestReleaseForSoftware (softwareName : String) (db : DB)
    (rangeOrder : List ReleaseMetadata) : Except String ReleaseMetadata :=
  match assocFind softwareName db.releases with
  | none => .error ("failed to get releases for software " ++ softwareName ++
      " to find latest: " ++ ("software package not found: " ++ softwareName))
  | some _ =>
    match rangeOrder with
    | [] => .error ("no releases found for software: " ++ softwareName)
    | r :: rs => .ok ((sortBy versionGreater (r :: rs)).headD r)

/-! ## Upload (`ReleaseService.UploadRelease`)

The filesystem side effects of an upload (directory creation, archive
copy, the stat of the placed file, the compensating `os.Remove`) are
modelled by an environment fixing each outcome; the metadata commit runs
against the store model.  The Go code discards the result of `os.Remove`
entirely. -/

instance {ε α : Type} [DecidableEq ε] [DecidableEq α] : DecidableEq (Except ε α) := fun x y =>
  match x, y with
  | .error a, .error b =>
    if h : a = b then isTrue (by rw [h]) else isFalse (fun he => by cases he; exact h rfl)
  | .ok a, .ok b =>
    if h : a = b then isTrue (by rw [h]) else isFalse (fun he => by cases he; exact h rfl)
  | .error _, .ok _ => isFalse (fun he => by cases he)
  | .ok _, .error _ => isFalse (fun he => by cases he)

/-- Outcomes of the filesystem steps of one `UploadRelease` call.
`removeErr` is the outcome `os.Remove` would report if called. -/
structure UploadEnv where
  now : Int
  ensureDirErr : Option String
  copyErr : Option String
  statResult : Except String Int
  removeErr : Option String
  deriving DecidableEq

/-- Result of an `UploadRelease` call: the returned value, the store after
the call, whether the compensating delete was attempted, whether the
archive file was placed, and whether it is still on disk afterwards. -/
structure UploadOutcome where
  result : RecOutcome
  db : DB
  removeAttempted : Bool
  filePlaced : Bool
  filePresent : Bool
  deriving DecidableEq

/-- The metadata record committed by `UploadRelease`: upload timestamp,
authoritative size from the stat, state forced to `"available"`. -/
def committedMetadata (env : UploadEnv) (metadata : ReleaseMetadata) (size : Int) :
    ReleaseMetadata :=
  { metadata with releaseTimestamp := env.now, fileSize := size, releaseState := "available" }

/-- Embedding of `ReleaseService.UploadRelease`.  `StoreReleaseFile` is
inlined: ensure the directory (error returned wrapped once), derive the
destination path (panics on a malformed version), copy (its error is
wrapped by `StoreReleaseFile` and again by `UploadRelease`).  When
`CreateReleaseMetadata` fails, `os.Remove(destFilePath)` is called and its
error is discarded; the caller sees only the wrapped primary error. -/
def uploadRelease (env : UploadEnv) (repoPath : String) (metadata : ReleaseMetadata)
    (db : DB) : UploadOutcome :=
  match env.ensureDirErr with
  | some e => ⟨.err ("failed to store release file: " ++ e), db, false, false, false⟩
  | none =>
    match getReleaseFilePath? repoPath metadata with
    | none => ⟨.panicked, db, false, false, false⟩
    | some _destFilePath =>
      match env.copyErr with
      | some e =>
        ⟨.err ("failed to store release file: " ++ ("failed to store release file: " ++ e)),
          db, false, false, false⟩
      | none =>
        match env.statResult with
        | .error e =>
          ⟨.err ("failed to get file size after storing release: " ++ e), db, false, true, true⟩
        | .ok size =>
          match createReleaseMetadata (committedMetadata env metadata size) db with
          | (.ok _, db') => ⟨.ok, db', false, true, true⟩
          | (.error e, db') =>
            ⟨.err ("failed to create release metadata and rollback file storage: " ++ e),
              db', true, true, env.removeErr.isSome⟩

/-! ## Spec-side predicates -/

/-- Spec-side reading of the version contract: the string splits into
exactly three dot-separated components, each a non-empty string of decimal
digits (a non-negative base-10 integer, with no sign). -/
def specThreeNonnegComponents (s : String) : Prop :=
  (splitOnDot s.data).length = 3 ∧
    ∀ p ∈ splitOnDot s.data, p ≠ [] ∧ ∀ c ∈ p, c.isDigit

instance (s : String) : Decidable (specThreeNonnegComponents s) := by
  unfold specThreeNonnegComponents
  infer_instance

/-- Spec-side path formula of the claim on the repository file layout,
with the three version components appearing exactly as given. -/
def specLayoutPath (repoRoot softwareName a b c : String) : String :=
  repoRoot ++ "/" ++ dirNameFor softwareName ++ "/" ++ dirNameFor softwareName ++ "_" ++
    a ++ "." ++ b ++ "." ++ c ++ ".tgz"

/-! ## Concrete stores, records and environments used as witnesses -/

def recAcme100 : ReleaseMetadata :=
  { id := "r1", softwareName := "acme", version := "1.0.0", releaseTimestamp := 10,
    fileSize := 1024, releaseState := "available", changelog := "first", releaseDate := 5 }

def recAcme200 : ReleaseMetadata :=
  { id := "r2", softwareName := "acme", version := "2.0.0", releaseTimestamp := 20,
    fileSize := 2048, releaseState := "available", changelog := "second", releaseDate := 15 }

def recBeta200 : ReleaseMetadata :=
  { id := "r3", softwareName := "beta", version := "2.0.0", releaseTimestamp := 30,
    fileSize := 3, releaseState := "unavailable", changelog := "", releaseDate := 25 }

def dbAcme : DB :=
  { releases := [("acme", [("1.0.0", recAcme100)])], persisted := [recAcme100] }

def dbAcme2 : DB :=
  { releases := [("acme", [("1.0.0", recAcme100), ("2.0.0", recAcme200)])],
    persisted := [recAcme100, recAcme200] }

def recAcme123 : ReleaseMetadata :=
  { id := "r6", softwareName := "acme", version := "1.2.3", releaseTimestamp := 0,
    fileSize := 0, releaseState := "available", changelog := "", releaseDate := 0 }

def recBadVersion : ReleaseMetadata :=
  { id := "r9", softwareName := "acme", version := "1.2", releaseTimestamp := 0,
    fileSize := 0, releaseState := "available", changelog := "", releaseDate := 0 }

def recCeta300 : ReleaseMetadata :=
  { id := "r4", softwareName := "ceta", version := "3.0.0", releaseTimestamp := 40,
    fileSize := 55, releaseState := "unavailable", changelog := "", releaseDate := 35 }

def recAcmeTieA : ReleaseMetadata :=
  { id := "t1", softwareName := "acme", version := "1.0.0", releaseTimestamp := 10,
    fileSize := 1, releaseState := "available", changelog := "", releaseDate := 1 }

def recAcmeTieB : ReleaseMetadata :=
  { id := "t2", softwareName := "acme", version := "01.0.0", releaseTimestamp := 20,
    fileSize := 2, releaseState := "available", changelog := "", releaseDate := 2 }

def dbAcmeTie : DB :=
  { releases := [("acme", [("1.0.0", recAcmeTieA), ("01.0.0", recAcmeTieB)])],
    persisted := [recAcmeTieA, recAcmeTieB] }

/-- The invariant of the nested map: every software key present maps to a
non-empty release collection. -/
def storeInv (db : DB) : Prop := ∀ p ∈ db.releases, p.2 ≠ []

instance (db : DB) : Decidable (storeInv db) := by
  unfold storeInv
  infer_instance

/-- A record is processable by the reconciliation loop without aborting:
its path derivation succeeds and the stat of that path is not an
unexpected I/O error. -/
def goodRecord (fs : Fs) (repoPath : String) (m : ReleaseMetadata) : Prop :=
  ∃ p, getReleaseFilePath? repoPath m = some p ∧ ∀ e, fs p ≠ FsStat.ioError e

def envRemoveFails : UploadEnv :=
  { now := 100, ensureDirErr := none, copyErr := none, statResult := .ok 2048,
    removeErr := some "permission denied" }

def envRemoveSucceeds : UploadEnv :=
  { now := 100, ensureDirErr := none, copyErr := none, statResult := .ok 2048,
    removeErr := none }

def fsAbortC2 : Fs := fun p =>
  if p = "/repo/891194_acme/891194_acme_01.00.00.tgz" then FsStat.absent
  else FsStat.ioError "permission denied"

def fsDriftC4 : Fs := fun p =>
  if p = "/repo/891194_acme/891194_acme_01.00.00.tgz" then FsStat.absent
  else FsStat.present 9

def fsAbortC3 : Fs := fun p =>
  if p = "/repo/891194_acme/891194_acme_01.00.00.tgz" then FsStat.absent
  else if p = "/repo/952911_ceta/952911_ceta_03.00.00.tgz" then FsStat.present 55
  else FsStat.ioError "input output error"

def runC3a : RecOut :=
  reconcileReleases fsAbortC3 "/repo" [recAcme100, recCeta300, recBeta200]
    [recAcme100, recCeta300, recBeta200]

def runC3b : RecOut :=
  reconcileReleases fsAbortC3 "/repo" runC3a.mem runC3a.persisted

def fsIdemC3 : Fs := fun _ => FsStat.present 1024

/-! ## String-utility lemmas -/

theorem splitOnDot_ne_nil (l : List Char) : splitOnDot l ≠ [] := by
  induction l with
  | nil => simp [splitOnDot]
  | cons c rest ih =>
    simp only [splitOnDot]
    split
    · simp
    · split
      · simp
      · simp

/-- The number of pieces produced by a dot-split is the number of dots
plus one. -/
theorem splitOnDot_length (l : List Char) :
    (splitOnDot l).length = l.count '.' + 1 := by
  induction l with
  | nil => simp [splitOnDot]
  | cons c rest ih =>
    simp only [splitOnDot, List.count_cons]
    by_cases hc : c = '.'
    · simp only [if_pos hc, List.length_cons, hc]
      simp [ih]
    · simp only [if_neg hc]
      have hne := splitOnDot_ne_nil rest
      match hsp : splitOnDot rest with
      | [] => exact absurd hsp hne
      | p :: ps =>
        rw [hsp] at ih
        simp only [List.length_cons] at ih ⊢
        have hbeq : ¬(c = '.') := hc
        simp [hbeq, ih]

theorem splitAll_length (s : String) :
    (splitAll s).length = s.data.count '.' + 1 := by
  unfold splitAll
  rw [List.length_map, splitOnDot_length]

/-! ## C5 — version-parsing contract -/

/-- C5 counterexample: the claim says parsing succeeds exactly on three
dot-separated NON-NEGATIVE integer components, but `strconv.Atoi` accepts
a sign, so `"1.2.-3"` parses successfully while its third component is not
a non-negative integer. -/
theorem parseVersion_nonneg_counterexample :
    (parseVersion "1.2.-3").isSome = true ∧ ¬ specThreeNonnegComponents "1.2.-3" := by
  decide

/-- C5 amended: parsing succeeds exactly when `SplitN(s, ".", 3)` yields
three components and each is accepted by `strconv.Atoi` (optional sign,
non-empty digit string, signed 64-bit range); `parse("1.2")` fails. -/
theorem parseVersion_succeeds_iff :
    (∀ s : String, (parseVersion s).isSome = true ↔
      ((goSplitN3 s).length = 3 ∧ ∀ p ∈ goSplitN3 s, (goAtoi p).isSome = true)) ∧
    parseVersion "1.2" = none := by
  constructor
  · intro s
    match h : goSplitN3 s with
    | [] => simp [parseVersion, h]
    | [a] => simp [parseVersion, h]
    | [a, b] => simp [parseVersion, h]
    | [a, b, c] =>
      rw [parseVersion, h]
      cases hga : goAtoi a <;> cases hgb : goAtoi b <;> cases hgc : goAtoi c <;>
        simp [List.forall_mem_cons, hga, hgb, hgc]
    | a :: b :: c :: d :: rest =>
      rw [parseVersion, h]
      constructor
      · intro hfalse
        simp at hfalse
      · rintro ⟨hlen, -⟩
        simp only [List.length_cons] at hlen
        omega
  · decide

/-- Witness for the amended C5 theorem at a concrete input. -/
theorem parseVersion_succeeds_iff_witness :
    (parseVersion "7.8.9").isSome = true :=
  (parseVersion_succeeds_iff.1 "7.8.9").mpr (by decide)

/-! ## C6 — repository file layout -/

/-- C6 counterexample: for name `"acme"` and version `"1.2.3"` the derived
path is not the claimed layout with the version components as given — the
`%02s` verbs zero-pad each component to width two. -/
theorem releaseFilePath_layout_counterexample :
    getReleaseFilePath? "/repo" recAcme123 ≠ some (specLayoutPath "/repo" "acme" "1" "2" "3") ∧
    getReleaseFilePath? "/repo" recAcme123 =
      some "/repo/891194_acme/891194_acme_01.02.03.tgz" ∧
    specLayoutPath "/repo" "acme" "1" "2" "3" = "/repo/891194_acme/891194_acme_1.2.3.tgz" := by
  decide

/-- C6 amended: for every metadata whose version splits into components
`a`, `b`, `c`, the derived path is
`repoRoot/<dirPrefix>_<sanitizedName>/<dirPrefix>_<sanitizedName>_<a>.<b>.<c>.tgz`
with each version component left-padded with zeros to a minimum width of
two (components of two or more characters appear as given). -/
theorem releaseFilePath_layout (repoPath : String) (m : ReleaseMetadata)
    (a b c : String) (h : splitAll m.version = [a, b, c]) :
    getReleaseFilePath? repoPath m =
      some (specLayoutPath repoPath m.softwareName
        (padLeftZero 2 a) (padLeftZero 2 b) (padLeftZero 2 c)) := by
  rw [getReleaseFilePath?, h]
  simp only [goJoin, getSoftwareDirPath, specLayoutPath, Option.some.injEq]
  simp [String.append_assoc]

/-- Witness for the amended C6 theorem at a concrete input. -/
theorem releaseFilePath_layout_witness :
    getReleaseFilePath? "/repo" recAcme123 =
      some (specLayoutPath "/repo" "acme" "01" "02" "03") :=
  releaseFilePath_layout "/repo" recAcme123 "1" "2" "3" (by decide)

/-! ## C9 — partiality of the path derivation -/

/-- C9: the path derivation is total exactly when the version string has at
least two dots (three split components).  With fewer than two dots the Go
code indexes `strings.Split(...)` out of range and panics; the panic
propagates to `ReconcileReleases` and `UploadRelease` (via
`StoreReleaseFile`). -/
theorem releaseFilePath_panics_on_short_version (repoPath : String) (m : ReleaseMetadata) :
    (m.version.data.count '.' < 2 →
      getReleaseFilePath? repoPath m = none ∧
      (∀ fs persisted, reconcileReleases fs repoPath [m] persisted =
        ⟨.panicked, [m], persisted⟩) ∧
      (∀ env db, env.ensureDirErr = none →
        (uploadRelease env repoPath m db).result = .panicked)) ∧
    (2 ≤ m.version.data.count '.' → ∃ p, getReleaseFilePath? repoPath m = some p) := by
  have hlen := splitAll_length m.version
  constructor
  · intro hdots
    have hnone : getReleaseFilePath? repoPath m = none := by
      rw [getReleaseFilePath?]
      match hs : splitAll m.version with
      | [] => rfl
      | [a] => rfl
      | [a, b] => rfl
      | a :: b :: c :: rest =>
        rw [hs] at hlen
        simp only [List.length_cons] at hlen
        omega
    refine ⟨hnone, ?_, ?_⟩
    · intro fs persisted
      rw [reconcileReleases, reconcileAux, hnone]
      simp
    · intro env db hdir
      rw [uploadRelease, hdir, hnone]
  · intro hdots
    rw [getReleaseFilePath?]
    match hs : splitAll m.version with
    | [] => rw [hs] at hlen; simp only [List.length_nil, List.length_cons] at hlen; omega
    | [a] => rw [hs] at hlen; simp only [List.length_nil, List.length_cons] at hlen; omega
    | [a, b] => rw [hs] at hlen; simp only [List.length_nil, List.length_cons] at hlen; omega
    | a :: b :: c :: rest => exact ⟨_, rfl⟩

/-- Witness for C9 at the concrete version strings `"1.2"` and `"1.0.0"`. -/
theorem releaseFilePath_panics_on_short_version_witness :
    (getReleaseFilePath? "/repo" recBadVersion = none ∧
      (∀ fs persisted, reconcileReleases fs "/repo" [recBadVersion] persisted =
        ⟨.panicked, [recBadVersion], persisted⟩) ∧
      (∀ env db, env.ensureDirErr = none →
        (uploadRelease env "/repo" recBadVersion db).result = .panicked)) ∧
    (∃ p, getReleaseFilePath? "/repo" recAcme100 = some p) :=
  ⟨(releaseFilePath_panics_on_short_version "/repo" recBadVersion).1 (by decide),
   (releaseFilePath_panics_on_short_version "/repo" recAcme100).2 (by decide)⟩

/-! ## C7 — duplicate create fails without mutation -/

/-- C7: when the `(softwareName, version)` key is already present, `create`
returns the `AlreadyExists` error and the store — in-memory collection and
persisted file alike — is returned exactly as it was. -/
theorem create_duplicate_no_mutation (db : DB) (m m0 : ReleaseMetadata)
    (inner : List (String × ReleaseMetadata))
    (hsw : assocFind m.softwareName db.releases = some inner)
    (hv : assocFind m.version inner = some m0) :
    createReleaseMetadata m db =
      (.error ("release version already exists for software " ++ m.softwareName ++ ": " ++
        m.version), db) := by
  rw [createReleaseMetadata]
  simp only [hsw, hv, Option.getD_some, Option.isSome_some, if_true]

/-- Witness for C7: creating `acme 1.0.0` on a store already holding it. -/
theorem create_duplicate_no_mutation_witness :
    createReleaseMetadata recAcme100 dbAcme =
      (.error "release version already exists for software acme: 1.0.0", dbAcme) :=
  create_duplicate_no_mutation dbAcme recAcme100 recAcme100 [("1.0.0", recAcme100)]
    (by decide) (by decide)

/-! ## C10 — software entries always hold at least one release -/

theorem assocFind_mem {k : String} {v : α} :
    ∀ {l : List (String × α)}, assocFind k l = some v → (k, v) ∈ l := by
  intro l
  induction l with
  | nil => intro h; simp [assocFind] at h
  | cons p rest ih =>
    intro h
    rw [assocFind] at h
    split at h
    · rename_i heq
      obtain ⟨rfl⟩ := h
      rcases p with ⟨k', v'⟩
      simp_all
    · exact List.mem_cons_of_mem _ (ih h)

theorem assocFind_append_of_none {k : String} {l1 l2 : List (String × α)}
    (h : assocFind k l1 = none) : assocFind k (l1 ++ l2) = assocFind k l2 := by
  induction l1 with
  | nil => simp
  | cons p rest ih =>
    rw [assocFind] at h
    rw [List.cons_append, assocFind]
    split at h
    · exact absurd h (by simp)
    · rename_i hne
      rw [if_neg hne]
      exact ih h

theorem mem_assocReplace {k : String} {v : α} {q : String × α}
    {l : List (String × α)} (h : q ∈ assocReplace k v l) :
    q = (k, v) ∨ (q ∈ l ∧ ¬ q.1 = k) := by
  rw [assocReplace, List.mem_map] at h
  obtain ⟨p, hp, hq⟩ := h
  by_cases hk : p.1 = k
  · rw [if_pos hk] at hq
    exact Or.inl hq.symm
  · rw [if_neg hk] at hq
    subst hq
    exact Or.inr ⟨hp, hk⟩

theorem assocFind_erase_self (k : String) (l : List (String × α)) :
    assocFind k (assocErase k l) = none := by
  induction l with
  | nil => rfl
  | cons p rest ih =>
    rw [assocErase, List.filter]
    split
    · rename_i hkeep
      rw [assocFind]
      rw [decide_eq_true_eq] at hkeep
      rw [if_neg (fun he => hkeep he)]
      exact ih
    · exact ih

theorem mem_assocErase {k : String} {q : String × α} {l : List (String × α)}
    (h : q ∈ assocErase k l) : q ∈ l :=
  List.mem_of_mem_filter h

/-- C10: every store operation preserves the invariant that a present
software key holds at least one release, and deleting the last release of
a software removes the software entry, after which `get` and
`listForSoftware` for that name fail with the not-found error rather than
returning an empty collection. -/
theorem store_ops_preserve_nonempty (db : DB) (m : ReleaseMetadata)
    (name version : String) (hinv : storeInv db) :
    storeInv (createReleaseMetadata m db).2 ∧
    storeInv (updateReleaseMetadata m db).2 ∧
    storeInv (deleteReleaseMetadata name version db).2 ∧
    (∀ m0, assocFind name db.releases = some [(version, m0)] →
      assocFind name (deleteReleaseMetadata name version db).2.releases = none ∧
      (∀ v2, getReleaseMetadata name v2 (deleteReleaseMetadata name version db).2 =
        .error ("software package not found: " ++ name)) ∧
      listReleasesMetadataForSoftware name (deleteReleaseMetadata name version db).2 =
        .error ("software package not found: " ++ name)) := by
  refine ⟨?_, ?_, ?_, ?_⟩
  · -- create
    rw [createReleaseMetadata]
    rcases hsw : assocFind m.softwareName db.releases with _ | inner
    · rw [assocFind_append_of_none hsw]
      simp only [assocFind, if_pos rfl, Option.getD_some, Option.isSome_none,
        Bool.false_eq_true, if_false]
      intro q hq
      rcases mem_assocReplace hq with rfl | ⟨hq', hqk⟩
      · simp
      · rcases List.mem_append.1 hq' with hq'' | hq''
        · exact hinv q hq''
        · simp only [List.mem_singleton] at hq''
          subst hq''
          exact absurd rfl hqk
    · simp only [Option.getD_some]
      split
      · exact hinv
      · intro q hq
        rcases mem_assocReplace hq with rfl | ⟨hq', _⟩
        · simp
        · exact hinv q hq'
  · -- update
    rcases hsw : assocFind m.softwareName db.releases with _ | inner
    · simp only [updateReleaseMetadata, hsw]
      exact hinv
    · simp only [updateReleaseMetadata, hsw]
      split
      · intro q hq
        rcases mem_assocReplace hq with rfl | ⟨hq', _⟩
        · have hne : inner ≠ [] := hinv _ (assocFind_mem hsw)
          simp only [ne_eq, assocReplace, List.map_eq_nil_iff]
          exact hne
        · exact hinv q hq'
      · exact hinv
  · -- delete
    rcases hsw : assocFind name db.releases with _ | inner
    · simp only [deleteReleaseMetadata, hsw]
      exact hinv
    · simp only [deleteReleaseMetadata, hsw]
      split
      · split
        · intro q hq
          exact hinv q (mem_assocErase hq)
        · rename_i hne
          intro q hq
          rcases mem_assocReplace hq with rfl | ⟨hq', _⟩
          · exact hne
          · exact hinv q hq'
      · exact hinv
  · -- delete of the last release removes the software entry
    intro m0 hsw
    have hfound : assocFind version [(version, m0)] = some m0 := by
      rw [assocFind, if_pos rfl]
    have herase : assocErase version [(version, m0)] = ([] : List (String × ReleaseMetadata)) := by
      rw [assocErase]
      simp [List.filter]
    have hdel : (deleteReleaseMetadata name version db).2.releases =
        assocErase name db.releases := by
      simp only [deleteReleaseMetadata, hsw, hfound, Option.isSome_some, if_true, herase,
        if_pos rfl]
    refine ⟨?_, ?_, ?_⟩
    · rw [hdel]
      exact assocFind_erase_self name db.releases
    · intro v2
      rw [getReleaseMetadata, hdel, assocFind_erase_self name db.releases]
    · rw [listReleasesMetadataForSoftware, hdel, assocFind_erase_self name db.releases]

/-- Witness for C10: the invariant holds on the two-release store, and
deleting the only release of `acme` in the one-release store makes `get`
and `listForSoftware` fail with not-found. -/
theorem store_ops_preserve_nonempty_witness :
    storeInv (createReleaseMetadata recBeta200 dbAcme2).2 ∧
    assocFind "acme" (deleteReleaseMetadata "acme" "1.0.0" dbAcme).2.releases = none ∧
    getReleaseMetadata "acme" "2.0.0" (deleteReleaseMetadata "acme" "1.0.0" dbAcme).2 =
      .error "software package not found: acme" ∧
    listReleasesMetadataForSoftware "acme" (deleteReleaseMetadata "acme" "1.0.0" dbAcme).2 =
      .error "software package not found: acme" := by
  have h2 := store_ops_preserve_nonempty dbAcme2 recBeta200 "acme" "1.0.0" (by decide)
  have h1 := store_ops_preserve_nonempty dbAcme recBeta200 "acme" "1.0.0" (by decide)
  obtain ⟨hfind, hget, hlist⟩ := h1.2.2.2 recAcme100 (by decide)
  exact ⟨h2.1, hfind, hget "2.0.0", hlist⟩

/-! ## C8 — head of the descending list versus the latest release -/

theorem sortLess_version_desc_eq : sortLess "version" "desc" = versionGreater := by
  funext a b
  rfl

theorem greaterThan_irrefl (v : Version) : v.greaterThan v = false := by
  unfold Version.greaterThan
  split_ifs <;> simp_all

theorem greaterThan_asymm (v w : Version) (h : v.greaterThan w = true) :
    w.greaterThan v = false := by
  unfold Version.greaterThan at h ⊢
  split_ifs at h ⊢ <;> simp_all <;> omega

theorem greaterThan_trans (v w u : Version) (h1 : v.greaterThan w = true)
    (h2 : w.greaterThan u = true) : v.greaterThan u = true := by
  unfold Version.greaterThan at h1 h2 ⊢
  split_ifs at h1 h2 ⊢ <;> simp_all
  all_goals omega

/-- Two versions neither of which is greater have equal triples:
`GreaterThan` is a strict total order on (major, minor, patch). -/
theorem greaterThan_tie (v w : Version) (h1 : v.greaterThan w = false)
    (h2 : w.greaterThan v = false) :
    v.major = w.major ∧ v.minor = w.minor ∧ v.patch = w.patch := by
  unfold Version.greaterThan at h1 h2
  split_ifs at h1 h2
  all_goals simp_all
  all_goals omega

theorem vg_irrefl (a : ReleaseMetadata) : versionGreater a a = false :=
  greaterThan_irrefl _

theorem vg_asymm (a b : ReleaseMetadata) (h : versionGreater a b = true) :
    versionGreater b a = false :=
  greaterThan_asymm _ _ h

theorem vg_trans (a b c : ReleaseMetadata) (h1 : versionGreater a b = true)
    (h2 : versionGreater b c = true) : versionGreater a c = true :=
  greaterThan_trans _ _ _ h1 h2

theorem vg_tie (a b : ReleaseMetadata) (h1 : versionGreater a b = false)
    (h2 : versionGreater b a = false) : versionTuple a = versionTuple b := by
  obtain ⟨hm, hn, hp⟩ := greaterThan_tie _ _ h1 h2
  unfold versionTuple
  rw [hm, hn, hp]

theorem mem_insertBy {less : α → α → Bool} {x z : α} :
    ∀ {l : List α}, z ∈ insertBy less x l → z = x ∨ z ∈ l := by
  intro l
  induction l with
  | nil =>
    intro h
    rw [insertBy, List.mem_singleton] at h
    exact Or.inl h
  | cons y ys ih =>
    intro h
    rw [insertBy] at h
    split at h
    · rcases List.mem_cons.1 h with rfl | h2
      · exact Or.inl rfl
      · exact Or.inr h2
    · rcases List.mem_cons.1 h with rfl | h2
      · exact Or.inr (List.mem_cons_self _ _)
      · rcases ih h2 with rfl | h3
        · exact Or.inl rfl
        · exact Or.inr (List.mem_cons_of_mem _ h3)

theorem insertBy_perm (less : α → α → Bool) (x : α) :
    ∀ (l : List α), (insertBy less x l).Perm (x :: l) := by
  intro l
  induction l with
  | nil => exact List.Perm.refl _
  | cons y ys ih =>
    rw [insertBy]
    split
    · exact List.Perm.refl _
    · exact (List.Perm.cons y ih).trans (List.Perm.swap x y ys)

theorem sortBy_perm (less : α → α → Bool) : ∀ (l : List α), (sortBy less l).Perm l := by
  intro l
  induction l with
  | nil => exact List.Perm.refl _
  | cons x xs ih =>
    rw [sortBy]
    exact (insertBy_perm less x (sortBy less xs)).trans (List.Perm.cons x ih)

theorem insertBy_pairwise_vg (x : ReleaseMetadata) :
    ∀ (l : List ReleaseMetadata),
      l.Pairwise (fun a b => versionGreater b a = false) →
      (insertBy versionGreater x l).Pairwise (fun a b => versionGreater b a = false) := by
  intro l
  induction l with
  | nil =>
    intro _
    rw [insertBy]
    simp
  | cons y ys ih =>
    intro hp
    rw [List.pairwise_cons] at hp
    obtain ⟨hy, hys⟩ := hp
    rw [insertBy]
    split
    · rename_i hxy
      rw [List.pairwise_cons]
      refine ⟨?_, ?_⟩
      · intro z hz
        rcases List.mem_cons.1 hz with rfl | hz2
        · exact vg_asymm x z hxy
        · cases hzx : versionGreater z x with
          | false => rfl
          | true =>
            have hzy := vg_trans z x y hzx hxy
            rw [hy z hz2] at hzy
            cases hzy
      · rw [List.pairwise_cons]
        exact ⟨hy, hys⟩
    · rename_i hxy
      rw [List.pairwise_cons]
      refine ⟨?_, ih hys⟩
      intro z hz
      rcases mem_insertBy hz with rfl | hz2
      · simpa using hxy
      · exact hy z hz2

theorem sortBy_pairwise_vg : ∀ (l : List ReleaseMetadata),
    (sortBy versionGreater l).Pairwise (fun a b => versionGreater b a = false) := by
  intro l
  induction l with
  | nil =>
    rw [sortBy]
    exact List.Pairwise.nil
  | cons x xs ih =>
    rw [sortBy]
    exact insertBy_pairwise_vg x _ ih

/-- The head of the version-descending sort is a maximum: no element of
the input list is strictly greater than it. -/
theorem sortBy_head_max (l : List ReleaseMetadata) (h : ReleaseMetadata)
    (hh : (sortBy versionGreater l).head? = some h) :
    ∀ y ∈ l, versionGreater y h = false := by
  intro y hy
  have hperm := sortBy_perm versionGreater l
  have hy2 : y ∈ sortBy versionGreater l := hperm.mem_iff.2 hy
  have hpw := sortBy_pairwise_vg l
  cases hs : sortBy versionGreater l with
  | nil =>
    rw [hs] at hh
    cases hh
  | cons a as =>
    rw [hs] at hh hy2 hpw
    simp only [List.head?_cons, Option.some.injEq] at hh
    subst hh
    rw [List.pairwise_cons] at hpw
    rcases List.mem_cons.1 hy2 with rfl | hy3
    · exact vg_irrefl y
    · exact hpw.1 y hy3

/-- C8 counterexample: Go ranges the inner map independently on each call
with unspecified order, and two distinct stored version strings can parse
to the same triple.  With `"1.0.0"` and `"01.0.0"` both stored for
`acme`, one realizable range order makes the version-descending list
start with the `"01.0.0"` record while another realizable range order
makes `GetLatestReleaseForSoftware` return the `"1.0.0"` record — the
claimed head equality fails for this non-empty release set. -/
theorem listDesc_head_vs_latest_counterexample :
    listReleasesForSoftware "acme" "version" "desc" dbAcmeTie
        [recAcmeTieA, recAcmeTieB] = .ok [recAcmeTieB, recAcmeTieA] ∧
    ([recAcmeTieB, recAcmeTieA] : List ReleaseMetadata).head? = some recAcmeTieB ∧
    getLatestReleaseForSoftware "acme" dbAcmeTie [recAcmeTieB, recAcmeTieA] =
      .ok recAcmeTieA ∧
    recAcmeTieB ≠ recAcmeTieA ∧
    List.Perm [recAcmeTieA, recAcmeTieB] [recAcmeTieB, recAcmeTieA] := by
  refine ⟨by decide, by decide, by decide, by decide, List.Perm.swap recAcmeTieB recAcmeTieA []⟩

/-- C8 amended: when no two stored releases of the software share a parsed
version triple, the head of the version-descending list equals the record
returned by `GetLatestReleaseForSoftware`, for any pair of per-call map
range orders (each a permutation of the stored releases); with ties the
two calls may return different records. -/
theorem listDesc_head_eq_latest_of_no_ties (db : DB) (softwareName : String)
    (inner : List (String × ReleaseMetadata))
    (ord1 ord2 l : List ReleaseMetadata) (h1 m2 : ReleaseMetadata)
    (hsw : assocFind softwareName db.releases = some inner)
    (hperm1 : ord1.Perm (inner.map Prod.snd))
    (hperm2 : ord2.Perm (inner.map Prod.snd))
    (hnoties : ∀ a ∈ inner.map Prod.snd, ∀ b ∈ inner.map Prod.snd,
      versionTuple a = versionTuple b → a = b)
    (hl : listReleasesForSoftware softwareName "version" "desc" db ord1 = .ok l)
    (hhead : l.head? = some h1)
    (hlat : getLatestReleaseForSoftware softwareName db ord2 = .ok m2) :
    h1 = m2 := by
  simp only [listReleasesForSoftware, hsw, Except.ok.injEq] at hl
  rw [sortLess_version_desc_eq] at hl
  subst hl
  have hmax1 := sortBy_head_max ord1 h1 hhead
  have hmem1 : h1 ∈ ord1 := by
    have : h1 ∈ sortBy versionGreater ord1 := by
      cases hs : sortBy versionGreater ord1 with
      | nil => rw [hs] at hhead; cases hhead
      | cons a as =>
        rw [hs] at hhead
        simp only [List.head?_cons, Option.some.injEq] at hhead
        subst hhead
        exact List.mem_cons_self _ _
    exact (sortBy_perm versionGreater ord1).mem_iff.1 this
  cases ord2 with
  | nil =>
    simp only [getLatestReleaseForSoftware, hsw] at hlat
    cases hlat
  | cons r rs =>
    simp only [getLatestReleaseForSoftware, hsw, Except.ok.injEq] at hlat
    have hsort2 := sortBy_perm versionGreater (r :: rs)
    have hne2 : sortBy versionGreater (r :: rs) ≠ [] := by
      intro hnil
      have := hsort2.length_eq
      rw [hnil] at this
      simp at this
    cases hs2 : sortBy versionGreater (r :: rs) with
    | nil => exact absurd hs2 hne2
    | cons a as =>
      rw [hs2] at hlat
      simp only [List.headD_cons] at hlat
      have hhead2 : (sortBy versionGreater (r :: rs)).head? = some m2 := by
        rw [hs2, hlat]
        rfl
      have hmax2 := sortBy_head_max (r :: rs) m2 hhead2
      have hmem2 : m2 ∈ r :: rs := by
        have : m2 ∈ sortBy versionGreater (r :: rs) := by
          rw [hs2, ← hlat]
          exact List.mem_cons_self _ _
        exact hsort2.mem_iff.1 this
      have hc1 : h1 ∈ inner.map Prod.snd := hperm1.mem_iff.1 hmem1
      have hc2 : m2 ∈ inner.map Prod.snd := hperm2.mem_iff.1 hmem2
      have h1in2 : h1 ∈ r :: rs := hperm2.mem_iff.2 hc1
      have m2in1 : m2 ∈ ord1 := hperm1.mem_iff.2 hc2
      have hvg1 : versionGreater h1 m2 = false := hmax2 h1 h1in2
      have hvg2 : versionGreater m2 h1 = false := hmax1 m2 m2in1
      exact hnoties h1 hc1 m2 hc2 (vg_tie h1 m2 hvg1 hvg2)

/-- Witness for the amended C8 theorem: the tie-free two-release `acme`
store, with the two calls ranging the map in different orders. -/
theorem listDesc_head_eq_latest_of_no_ties_witness : recAcme200 = recAcme200 :=
  listDesc_head_eq_latest_of_no_ties dbAcme2 "acme"
    [("1.0.0", recAcme100), ("2.0.0", recAcme200)]
    [recAcme100, recAcme200] [recAcme200, recAcme100] [recAcme200, recAcme100]
    recAcme200 recAcme200
    (by decide) (List.Perm.refl _) (List.Perm.swap recAcme100 recAcme200 [])
    (by decide) (by decide) (by decide) (by decide)

/-! ## C1 — rollback on metadata-commit failure -/

/-- C1 counterexample: with the duplicate-create failure as primary error
and a failing compensating delete, `UploadRelease` attempts the delete
(leaving the orphaned file in place) yet returns a result that carries
only the wrapped primary error — identical to the result when the delete
succeeds, so the deletion failure is not reported to the caller at all,
let alone distinctly. -/
theorem upload_rollback_single_error_counterexample :
    (uploadRelease envRemoveFails "/repo" recAcme100 dbAcme).removeAttempted = true ∧
    (uploadRelease envRemoveFails "/repo" recAcme100 dbAcme).filePresent = true ∧
    (uploadRelease envRemoveFails "/repo" recAcme100 dbAcme).result =
      .err ("failed to create release metadata and rollback file storage: " ++
        "release version already exists for software acme: 1.0.0") ∧
    (uploadRelease envRemoveFails "/repo" recAcme100 dbAcme).result =
      (uploadRelease envRemoveSucceeds "/repo" recAcme100 dbAcme).result := by
  decide

/-- C1 amended: when the metadata commit fails after the archive file has
been placed, `UploadRelease` attempts to delete the just-placed file and
returns the wrapped primary error; the outcome of the compensating delete
is discarded, so a failed deletion leaves the orphaned file behind and the
caller still receives only the primary error. -/
theorem upload_rollback_discards_remove_error (env : UploadEnv) (repoPath : String)
    (metadata : ReleaseMetadata) (db db2 : DB) (dest : String) (size : Int) (e : String)
    (hdir : env.ensureDirErr = none)
    (hpath : getReleaseFilePath? repoPath metadata = some dest)
    (hcopy : env.copyErr = none)
    (hstat : env.statResult = .ok size)
    (hcreate : createReleaseMetadata (committedMetadata env metadata size) db =
      (.error e, db2)) :
    uploadRelease env repoPath metadata db =
      ⟨.err ("failed to create release metadata and rollback file storage: " ++ e),
        db2, true, true, env.removeErr.isSome⟩ := by
  simp only [uploadRelease, hdir, hpath, hcopy, hstat, hcreate]

/-- Witness for the amended C1 theorem: concrete duplicate upload with a
failing compensating delete. -/
theorem upload_rollback_discards_remove_error_witness :
    uploadRelease envRemoveFails "/repo" recAcme100 dbAcme =
      ⟨.err ("failed to create release metadata and rollback file storage: " ++
        "release version already exists for software acme: 1.0.0"),
        dbAcme, true, true, true⟩ :=
  upload_rollback_discards_remove_error envRemoveFails "/repo" recAcme100 dbAcme dbAcme
    "/repo/891194_acme/891194_acme_01.00.00.tgz" 2048
    "release version already exists for software acme: 1.0.0"
    rfl (by decide) rfl rfl (by decide)

/-! ## Reconciliation lemmas (for C2, C3, C4) -/

/-- The path derivation reads only the software name and the version, so
updating state or size fields leaves it unchanged. -/
theorem getReleaseFilePath_update (repoPath : String) (m : ReleaseMetadata)
    (st : String) (sz : Int) :
    getReleaseFilePath? repoPath { m with releaseState := st, fileSize := sz } =
      getReleaseFilePath? repoPath m := rfl

theorem getReleaseFilePath_update_state (repoPath : String) (m : ReleaseMetadata)
    (st : String) :
    getReleaseFilePath? repoPath { m with releaseState := st } =
      getReleaseFilePath? repoPath m := rfl

theorem path_repair_invariant (fs : Fs) (repoPath : String) (m : ReleaseMetadata) :
    getReleaseFilePath? repoPath (repairRecord fs repoPath m) =
      getReleaseFilePath? repoPath m := by
  rcases h : getReleaseFilePath? repoPath m with _ | p
  · have h1 : repairRecord fs repoPath m = m := by simp only [repairRecord, h]
    rw [h1, h]
  · rcases hf : fs p with _ | sz | e
    · have h1 : repairRecord fs repoPath m = { m with releaseState := "unavailable" } := by
        simp only [repairRecord, h, hf]
      rw [h1, getReleaseFilePath_update_state, h]
    · have h1 : repairRecord fs repoPath m =
          { m with releaseState := "available", fileSize := sz } := by
        simp only [repairRecord, h, hf]
      rw [h1, getReleaseFilePath_update, h]
    · have h1 : repairRecord fs repoPath m = m := by simp only [repairRecord, h, hf]
      rw [h1, h]

theorem repairRecord_idem (fs : Fs) (repoPath : String) (m : ReleaseMetadata) :
    repairRecord fs repoPath (repairRecord fs repoPath m) = repairRecord fs repoPath m := by
  rcases h : getReleaseFilePath? repoPath m with _ | p
  · have h1 : repairRecord fs repoPath m = m := by simp only [repairRecord, h]
    rw [h1]
    exact h1
  · rcases hf : fs p with _ | sz | e
    · have h1 : repairRecord fs repoPath m = { m with releaseState := "unavailable" } := by
        simp only [repairRecord, h, hf]
      have hpath2 : getReleaseFilePath? repoPath { m with releaseState := "unavailable" } =
          some p := by rw [getReleaseFilePath_update_state, h]
      have h2 : repairRecord fs repoPath { m with releaseState := "unavailable" } =
          { m with releaseState := "unavailable" } := by
        simp only [repairRecord, hpath2, hf]
      rw [h1]
      exact h2
    · have h1 : repairRecord fs repoPath m =
          { m with releaseState := "available", fileSize := sz } := by
        simp only [repairRecord, h, hf]
      have hpath2 : getReleaseFilePath? repoPath
          { m with releaseState := "available", fileSize := sz } = some p := by
        rw [getReleaseFilePath_update, h]
      have h2 : repairRecord fs repoPath { m with releaseState := "available", fileSize := sz } =
          { m with releaseState := "available", fileSize := sz } := by
        simp only [repairRecord, hpath2, hf]
      rw [h1]
      exact h2
    · have h1 : repairRecord fs repoPath m = m := by simp only [repairRecord, h, hf]
      rw [h1]
      exact h1

/-- When every remaining record is processable, the loop completes,
returning the repaired records, all persisted by the final save. -/
theorem reconcileAux_allGood (fs : Fs) (repoPath : String) :
    ∀ (todo done persisted : List ReleaseMetadata),
      (∀ m ∈ todo, goodRecord fs repoPath m) →
      reconcileAux fs repoPath done persisted todo =
        ⟨.ok, done ++ todo.map (repairRecord fs repoPath),
          done ++ todo.map (repairRecord fs repoPath)⟩ := by
  intro todo
  induction todo with
  | nil =>
    intro done persisted _
    simp [reconcileAux]
  | cons m rest ih =>
    intro done persisted hgood
    obtain ⟨p, hp, hne⟩ := hgood m (List.mem_cons_self m rest)
    have hrest : ∀ m2 ∈ rest, goodRecord fs repoPath m2 :=
      fun m2 hm2 => hgood m2 (List.mem_cons_of_mem m hm2)
    rcases hf : fs p with _ | sz | e
    · have hrep : repairRecord fs repoPath m = { m with releaseState := "unavailable" } := by
        simp only [repairRecord, hp, hf]
      simp only [reconcileAux, hp, hf]
      rw [ih _ _ hrest]
      simp [hrep, List.append_assoc]
    · by_cases hsz : m.fileSize = sz
      · subst hsz
        have hrep : repairRecord fs repoPath m = { m with releaseState := "available" } := by
          simp only [repairRecord, hp, hf]
        simp only [reconcileAux, hp, hf, if_pos]
        rw [ih _ _ hrest]
        simp [hrep, List.append_assoc]
      · have hrep : repairRecord fs repoPath m =
            { m with releaseState := "available", fileSize := sz } := by
          simp only [repairRecord, hp, hf]
        simp only [reconcileAux, hp, hf]
        rw [if_neg hsz]
        rw [ih _ _ hrest]
        simp [hrep, List.append_assoc]
    · exact absurd hf (hne e)

/-- A loop run that returns normally processed every record without a
path panic or an unexpected stat error. -/
theorem reconcileAux_ok_good (fs : Fs) (repoPath : String) :
    ∀ (todo done persisted : List ReleaseMetadata),
      (reconcileAux fs repoPath done persisted todo).outcome = .ok →
      ∀ m ∈ todo, goodRecord fs repoPath m := by
  intro todo
  induction todo with
  | nil =>
    intro done persisted _ m hm
    simp at hm
  | cons m rest ih =>
    intro done persisted h m2 hm2
    rcases hp : getReleaseFilePath? repoPath m with _ | p
    · simp [reconcileAux, hp] at h
    · rcases hf : fs p with _ | sz | e
      · simp only [reconcileAux, hp, hf] at h
        rcases List.mem_cons.1 hm2 with rfl | hm2'
        · exact ⟨p, hp, fun e2 => by simp [hf]⟩
        · exact ih _ _ h m2 hm2'
      · simp only [reconcileAux, hp, hf] at h
        split at h
        · rcases List.mem_cons.1 hm2 with rfl | hm2'
          · exact ⟨p, hp, fun e2 => by simp [hf]⟩
          · exact ih _ _ h m2 hm2'
        · rcases List.mem_cons.1 hm2 with rfl | hm2'
          · exact ⟨p, hp, fun e2 => by simp [hf]⟩
          · exact ih _ _ h m2 hm2'
      · simp [reconcileAux, hp, hf] at h

/-- An aborting loop run surfaces the wrapped stat error of one of the
records it was processing. -/
theorem reconcileAux_err (fs : Fs) (repoPath : String) :
    ∀ (todo done persisted mem pfin : List ReleaseMetadata) (e : String),
      reconcileAux fs repoPath done persisted todo = ⟨.err e, mem, pfin⟩ →
      ∃ m, m ∈ todo ∧ ∃ p e0, getReleaseFilePath? repoPath m = some p ∧
        fs p = FsStat.ioError e0 ∧
        e = "error checking release file during reconciliation for " ++ m.softwareName ++
          " " ++ m.version ++ ": " ++ e0 := by
  intro todo
  induction todo with
  | nil =>
    intro done persisted mem pfin e h
    simp [reconcileAux] at h
  | cons m rest ih =>
    intro done persisted mem pfin e h
    rcases hp : getReleaseFilePath? repoPath m with _ | p
    · simp [reconcileAux, hp] at h
    · rcases hf : fs p with _ | sz | e1
      · simp only [reconcileAux, hp, hf] at h
        obtain ⟨m2, hm2, hrest⟩ := ih _ _ _ _ _ h
        exact ⟨m2, List.mem_cons_of_mem m hm2, hrest⟩
      · simp only [reconcileAux, hp, hf] at h
        split at h
        · obtain ⟨m2, hm2, hrest⟩ := ih _ _ _ _ _ h
          exact ⟨m2, List.mem_cons_of_mem m hm2, hrest⟩
        · obtain ⟨m2, hm2, hrest⟩ := ih _ _ _ _ _ h
          exact ⟨m2, List.mem_cons_of_mem m hm2, hrest⟩
      · simp only [reconcileAux, hp, hf, RecOut.mk.injEq, RecOutcome.err.injEq] at h
        exact ⟨m, List.mem_cons_self m rest, p, e1, hp, hf, h.1.symm⟩

/-! ## C2 — abort behaviour of reconciliation -/

/-- C2 counterexample: with `acme 1.0.0`'s file absent and `beta 2.0.0`'s
stat failing, the pass aborts with the stat error, but the repair of the
first record has already been applied and persisted — the metadata store
is not left unchanged, so reconciliation is not all-or-nothing. -/
theorem reconcile_abort_not_atomic_counterexample :
    (reconcileReleases fsAbortC2 "/repo" [recAcme100, recBeta200]
        [recAcme100, recBeta200]).outcome =
      .err ("error checking release file during reconciliation for beta 2.0.0: " ++
        "permission denied") ∧
    (reconcileReleases fsAbortC2 "/repo" [recAcme100, recBeta200]
        [recAcme100, recBeta200]).persisted ≠ [recAcme100, recBeta200] ∧
    (reconcileReleases fsAbortC2 "/repo" [recAcme100, recBeta200]
        [recAcme100, recBeta200]).persisted =
      [{ recAcme100 with releaseState := "unavailable" }, recBeta200] := by
  decide

/-- C2 amended: an unexpected stat error aborts the pass and is surfaced
to the caller (wrapped with the record's software name and version), but
per-record repairs made earlier in the same pass remain persisted; the
pass is abort-on-error, not all-or-nothing. -/
theorem reconcile_abort_surfaces_stat_error (fs : Fs) (repoPath : String)
    (store persisted mem pfin : List ReleaseMetadata) (e : String)
    (h : reconcileReleases fs repoPath store persisted = ⟨.err e, mem, pfin⟩) :
    ∃ m, m ∈ store ∧ ∃ p e0, getReleaseFilePath? repoPath m = some p ∧
      fs p = FsStat.ioError e0 ∧
      e = "error checking release file during reconciliation for " ++ m.softwareName ++
        " " ++ m.version ++ ": " ++ e0 :=
  reconcileAux_err fs repoPath store [] persisted mem pfin e h

/-- Witness for the amended C2 theorem at the concrete aborting run. -/
theorem reconcile_abort_surfaces_stat_error_witness :
    ∃ m, m ∈ [recAcme100, recBeta200] ∧ ∃ p e0,
      getReleaseFilePath? "/repo" m = some p ∧ fsAbortC2 p = FsStat.ioError e0 ∧
      ("error checking release file during reconciliation for beta 2.0.0: " ++
        "permission denied") =
        "error checking release file during reconciliation for " ++ m.softwareName ++
          " " ++ m.version ++ ": " ++ e0 :=
  reconcile_abort_surfaces_stat_error fsAbortC2 "/repo" [recAcme100, recBeta200]
    [recAcme100, recBeta200]
    [{ recAcme100 with releaseState := "unavailable" }, recBeta200]
    [{ recAcme100 with releaseState := "unavailable" }, recBeta200]
    ("error checking release file during reconciliation for beta 2.0.0: " ++
      "permission denied")
    (by decide)

/-! ## C4 — drift repair -/

/-- C4: a successful reconciliation pass replaces every record by its
repaired form: a record whose backing file is absent ends up
`"unavailable"`, and a record whose file exists ends up `"available"` with
`fileSize` equal to the observed size (in particular when the sizes
differed). -/
theorem reconcile_repairs_drift (fs : Fs) (repoPath : String)
    (store persisted mem pfin : List ReleaseMetadata)
    (h : reconcileReleases fs repoPath store persisted = ⟨.ok, mem, pfin⟩) :
    mem = store.map (repairRecord fs repoPath) ∧
    pfin = mem ∧
    (∀ m path, getReleaseFilePath? repoPath m = some path → fs path = FsStat.absent →
      (repairRecord fs repoPath m).releaseState = "unavailable") ∧
    (∀ m path size, getReleaseFilePath? repoPath m = some path →
      fs path = FsStat.present size →
      (repairRecord fs repoPath m).releaseState = "available" ∧
      (repairRecord fs repoPath m).fileSize = size) := by
  have h2 : reconcileAux fs repoPath [] persisted store = ⟨.ok, mem, pfin⟩ := h
  have hgood := reconcileAux_ok_good fs repoPath store [] persisted (by rw [h2])
  have hchar := reconcileAux_allGood fs repoPath store [] persisted hgood
  rw [h2] at hchar
  simp only [List.nil_append, RecOut.mk.injEq] at hchar
  obtain ⟨-, hmem, hpfin⟩ := hchar
  refine ⟨hmem, by rw [hpfin, hmem], ?_, ?_⟩
  · intro m path hp hf
    simp only [repairRecord, hp, hf]
  · intro m path size hp hf
    constructor
    · simp only [repairRecord, hp, hf]
    · simp only [repairRecord, hp, hf]

/-- Witness for C4: `acme 1.0.0` (available, file deleted) is marked
unavailable; `beta 2.0.0` (unavailable, file back on disk with size 9
instead of the recorded 3) is marked available with the new size. -/
theorem reconcile_repairs_drift_witness :
    ([{ recAcme100 with releaseState := "unavailable" },
      { recBeta200 with releaseState := "available", fileSize := 9 }] :
        List ReleaseMetadata) =
      [recAcme100, recBeta200].map (repairRecord fsDriftC4 "/repo") ∧
    (repairRecord fsDriftC4 "/repo" recAcme100).releaseState = "unavailable" ∧
    (repairRecord fsDriftC4 "/repo" recBeta200).releaseState = "available" ∧
    (repairRecord fsDriftC4 "/repo" recBeta200).fileSize = 9 := by
  have h := reconcile_repairs_drift fsDriftC4 "/repo" [recAcme100, recBeta200]
    [recAcme100, recBeta200]
    [{ recAcme100 with releaseState := "unavailable" },
      { recBeta200 with releaseState := "available", fileSize := 9 }]
    [{ recAcme100 with releaseState := "unavailable" },
      { recBeta200 with releaseState := "available", fileSize := 9 }]
    (by decide)
  refine ⟨h.1, ?_, ?_, ?_⟩
  · exact h.2.2.1 recAcme100 "/repo/891194_acme/891194_acme_01.00.00.tgz"
      (by decide) (by decide)
  · exact (h.2.2.2 recBeta200 "/repo/923120_beta/923120_beta_02.00.00.tgz" 9
      (by decide) (by decide)).1
  · exact (h.2.2.2 recBeta200 "/repo/923120_beta/923120_beta_02.00.00.tgz" 9
      (by decide) (by decide)).2

/-! ## C3 — reconciliation idempotence -/

/-- C3 counterexample: the claim quantifies over every store and
filesystem state, but idempotence fails for a pass that aborts.  Here
`acme`'s file is absent (repaired and persisted), `ceta`'s file is present
with the recorded size but the record was `"unavailable"` (state flipped
in memory only — the size is unchanged, so nothing is persisted), and
`beta`'s stat errors, aborting the pass before the final save.  The second
invocation, repairing `acme` again, persists the whole in-memory
collection, so `ceta`'s changed record reaches the persisted file only on
the second call — an additional mutation. -/
theorem reconcile_idempotent_counterexample :
    runC3b.persisted ≠ runC3a.persisted ∧
    runC3a.persisted =
      [{ recAcme100 with releaseState := "unavailable" }, recCeta300, recBeta200] ∧
    runC3b.persisted =
      [{ recAcme100 with releaseState := "unavailable" },
        { recCeta300 with releaseState := "available" }, recBeta200] ∧
    runC3b.mem = runC3a.mem := by
  decide

/-- C3 amended: if a reconciliation pass completes normally, running it
again with the filesystem unchanged is a no-op: the in-memory records and
the persisted file come out exactly as the first pass left them (a pass
that aborts, by contrast, may persist further repairs on the second
invocation). -/
theorem reconcile_idempotent (fs : Fs) (repoPath : String)
    (store persisted mem pfin : List ReleaseMetadata)
    (h : reconcileReleases fs repoPath store persisted = ⟨.ok, mem, pfin⟩) :
    reconcileReleases fs repoPath mem pfin = ⟨.ok, mem, pfin⟩ := by
  have h2 : reconcileAux fs repoPath [] persisted store = ⟨.ok, mem, pfin⟩ := h
  have hgood := reconcileAux_ok_good fs repoPath store [] persisted (by rw [h2])
  have hchar := reconcileAux_allGood fs repoPath store [] persisted hgood
  rw [h2] at hchar
  simp only [List.nil_append, RecOut.mk.injEq] at hchar
  obtain ⟨-, hmem, hpfin⟩ := hchar
  have hgood2 : ∀ m2 ∈ mem, goodRecord fs repoPath m2 := by
    intro m2 hm2
    rw [hmem, List.mem_map] at hm2
    obtain ⟨m0, hm0, rfl⟩ := hm2
    obtain ⟨p, hp, hne⟩ := hgood m0 hm0
    exact ⟨p, by rw [path_repair_invariant fs repoPath m0]; exact hp, hne⟩
  have hmain := reconcileAux_allGood fs repoPath mem [] pfin hgood2
  have hmapidem : mem.map (repairRecord fs repoPath) = mem := by
    rw [hmem, List.map_map]
    have hcomp : (repairRecord fs repoPath) ∘ (repairRecord fs repoPath) =
        repairRecord fs repoPath :=
      funext (fun x => repairRecord_idem fs repoPath x)
    rw [hcomp]
  have hpm : pfin = mem := by rw [hpfin, hmem]
  rw [show reconcileReleases fs repoPath mem pfin =
    reconcileAux fs repoPath [] pfin mem from rfl, hmain]
  simp only [List.nil_append, hmapidem, hpm]

/-- Witness for C3: a store already in agreement with the filesystem is
reconciled to itself, and the theorem applied to that run yields the same
no-op for the second run. -/
theorem reconcile_idempotent_witness :
    reconcileReleases fsIdemC3 "/repo" [recAcme100] [recAcme100] =
      ⟨.ok, [recAcme100], [recAcme100]⟩ :=
  reconcile_idempotent fsIdemC3 "/repo" [recAcme100] [recAcme100] [recAcme100] [recAcme100]
    (by decide)

end RepoMan
